import Mathlib

/-!
Verification of the two gluster volume parsers in
`insights/parsers/gluster_vol.py` (`GlusterVolInfo.parse_content` and
`GlusterVolStatus.parse_content`).

The parsers are embedded shallowly: Python strings become `String`
(manipulated through their underlying `List Char`), Python dicts become
association lists with in-place update (`dictInsert`), and exceptions
become an explicit error type `PErr` threaded through `Except`.

The two shared utilities `get_active_lines` and `parse_fixed_table` live in
`insights/parsers/__init__.py`, which is not among the sources under
review; they are modelled from the specification (see their doc comments).
Everything else is translated directly from `gluster_vol.py`.
-/

/-! ## Python string primitives -/

/-- Whitespace characters recognised by Python `str.strip` (the ones that can
occur in command-output lines). -/
def isWs (c : Char) : Bool :=
  c = ' ' || c = '\t' || c = '\n' || c = '\r'

/-- Python `str.lstrip()` on a character list. -/
def lstripL (cs : List Char) : List Char := cs.dropWhile isWs

/-- Python `str.rstrip()` on a character list. -/
def rstripL (cs : List Char) : List Char := (cs.reverse.dropWhile isWs).reverse

/-- Python `str.strip()` on a character list. -/
def stripL (cs : List Char) : List Char := rstripL (lstripL cs)

/-- Python `str.strip()`. -/
def pyStrip (s : String) : String := String.mk (stripL s.data)

/-- Python `str.lstrip()`. -/
def pyLstrip (s : String) : String := String.mk (lstripL s.data)

/-- Python `str.lstrip(" ")` (spaces only). -/
def pyLstripSpace (s : String) : String :=
  String.mk (s.data.dropWhile (fun c => c = ' '))

/-- Python `s.startswith(p)`. -/
def strStartsWith (s p : String) : Bool := decide (p.data <+: s.data)

/-- The character test used to locate the first colon. -/
def isNotColon (c : Char) : Bool := decide (c ≠ ':')

/-- The part of a character list before its first colon
(all of it when there is no colon). -/
def beforeColonL (cs : List Char) : List Char := cs.takeWhile isNotColon

/-- The part of a character list after its first colon
(empty when there is no colon). -/
def afterColonL (cs : List Char) : List Char :=
  (cs.dropWhile isNotColon).tail

/-- Python `":" in s`. -/
def hasColon (s : String) : Bool := decide (':' ∈ s.data)

/-- Python `s.split(":", 1)` destructured into exactly two parts; `none`
models the `ValueError` raised by `a, b = s.split(":", 1)` when `s` has no
colon. -/
def pySplitColon1? (s : String) : Option (String × String) :=
  if hasColon s then
    some (String.mk (beforeColonL s.data), String.mk (afterColonL s.data))
  else none

/-- Helper for whitespace tokenization, accumulating the current (reversed)
token. -/
def splitWsAux : List Char → List Char → List (List Char)
  | [], acc => if acc = [] then [] else [acc.reverse]
  | c :: cs, acc =>
    if isWs c then
      if acc = [] then splitWsAux cs [] else acc.reverse :: splitWsAux cs []
    else splitWsAux cs (c :: acc)

/-- Python `s.split()` (split on whitespace runs, no empty tokens) on a
character list. -/
def splitWsL (cs : List Char) : List (List Char) := splitWsAux cs []

/-- Python `s.split()` producing strings. -/
def splitWsStr (s : String) : List String := (splitWsL s.data).map String.mk

/-- The last whitespace-delimited token of a string (empty when there is
none); used to phrase the derived-field specification. -/
def lastToken (s : String) : String := String.mk ((splitWsL s.data).getLastD [])

/-- Python `s.replace(pat, rep)` with explicit fuel; the fuel `cs.length` is
always sufficient because each step consumes at least one character. -/
def replaceFuel : Nat → List Char → List Char → List Char → List Char
  | 0, cs, _, _ => cs
  | _ + 1, [], _, _ => []
  | n + 1, c :: rest, pat, rep =>
    if pat ≠ [] ∧ pat.isPrefixOf (c :: rest) then
      rep ++ replaceFuel n ((c :: rest).drop pat.length) pat rep
    else c :: replaceFuel n rest pat rep

/-- Python `s.replace(pat, rep)` (all non-overlapping occurrences,
left to right). -/
def replaceL (cs pat rep : List Char) : List Char := replaceFuel cs.length cs pat rep

/-- Apply a list of `str.replace` substitutions in order, as
`parse_fixed_table` does with `header_substitute`. -/
def applySubs (s : String) (subs : List (String × String)) : String :=
  subs.foldl (fun acc p => String.mk (replaceL acc.data p.1.data p.2.data)) s

/-! ## Python dict model

Python dicts preserve insertion order; assigning to an existing key replaces
its value in place, assigning to a fresh key appends it. -/

/-- The keys of a dict, in insertion order. -/
def dictKeys {α : Type} (d : List (String × α)) : List String := d.map Prod.fst

/-- Python `d[k] = v`. -/
def dictInsert {α : Type} (d : List (String × α)) (k : String) (v : α) :
    List (String × α) :=
  if k ∈ dictKeys d then d.map (fun p => if p.1 = k then (k, v) else p)
  else d ++ [(k, v)]

/-- Python `d[k]` as an option. -/
def dictLookup {α : Type} (d : List (String × α)) (k : String) : Option α :=
  (d.find? (fun p => p.1 = k)).map Prod.snd

/-! ## Errors -/

/-- The exceptions the embedded code can raise: `ParseException` from
`insights.parsers`, and the builtin `ValueError` / `KeyError` / `IndexError`
that unguarded destructuring, subscription and `[-1]` indexing can raise. -/
inductive PErr
  | parseException
  | valueError
  | keyError
  | indexError
deriving DecidableEq, Repr

instance {ε α : Type} [DecidableEq ε] [DecidableEq α] : DecidableEq (Except ε α)
  | .error a, .error b =>
    if h : a = b then .isTrue (by rw [h]) else .isFalse (by intro hc; cases hc; exact h rfl)
  | .error _, .ok _ => .isFalse (by intro hc; cases hc)
  | .ok _, .error _ => .isFalse (by intro hc; cases hc)
  | .ok a, .ok b =>
    if h : a = b then .isTrue (by rw [h]) else .isFalse (by intro hc; cases hc; exact h rfl)

/-! ## Shared utilities (modelled from the spec) -/

/-- Modelled from the spec: the shared utility `get_active_lines`
(ActiveLineFilter) is not among the sources under review.  Per the spec it
"returns only active (non-comment, non-blank) lines": a line is kept when
its stripped form is non-empty and does not start with the comment marker
(`"#"` by default, `"----"` for the status table rules); kept lines are
passed through verbatim. -/
def getActiveLines (lines : List String) (marker : String) : List String :=
  lines.filter (fun l => !(pyStrip l == "") && !(strStartsWith (pyStrip l) marker))

/-- Rows of a fixed-width table: a dict from column name to cell text. -/
abbrev Row := List (String × String)

/-- Start offsets of the whitespace-delimited tokens of a character list:
positions holding a non-whitespace character preceded by start-of-string or
whitespace. -/
def tokenStartsAux : List Char → Nat → Bool → List Nat
  | [], _, _ => []
  | c :: cs, i, prevWs =>
    if isWs c then tokenStartsAux cs (i + 1) true
    else if prevWs then i :: tokenStartsAux cs (i + 1) false
    else tokenStartsAux cs (i + 1) false

/-- Start offsets of all tokens of a character list. -/
def tokenStarts (cs : List Char) : List Nat := tokenStartsAux cs 0 true

/-- Slice a row at consecutive column start offsets; the last column extends
to the end of the row. -/
def cellsFrom (row : List Char) : List Nat → List (List Char)
  | [] => []
  | [s] => [row.drop s]
  | s1 :: s2 :: rest => ((row.drop s1).take (s2 - s1)) :: cellsFrom row (s2 :: rest)

/-- Index of the first line whose stripped form starts with one of the
heading labels; that line is the column header row. -/
def findHeaderIdx (lines : List String) (ign : List String) : Option Nat :=
  (lines.enum.find? (fun p => ign.any (fun k => strStartsWith (pyStrip p.2) k))).map
    Prod.fst

/-- Modelled from the spec: the shared utility `parse_fixed_table`
(FixedTableParser) is not among the sources under review.  Per the spec: the
column header row is identified by the heading labels; the listed header
substitutions are applied to it; fixed-width column boundaries are the
header row's token start offsets; each subsequent row is sliced at those
offsets and each field trimmed; consuming rows stops at a trailing section
introduced by one of the trailing labels; a section with no header or no
data rows yields an empty row sequence, not an error. -/
def parseFixedTable (lines : List String) (subs : List (String × String))
    (headingIgnore trailingIgnore : List String) : List Row :=
  match findHeaderIdx lines headingIgnore with
  | none => []
  | some h =>
    let header := applySubs (lines.getD h "") subs
    let starts := tokenStarts header.data
    let names := splitWsStr header
    let dataLines := (lines.drop (h + 1)).takeWhile
      (fun l => !(trailingIgnore.any (fun k => strStartsWith (pyStrip l) k)))
    dataLines.map (fun rl =>
      let cells := (cellsFrom rl.data starts).map (fun c => String.mk (stripL c))
      (names.zip cells).foldl (fun d p => dictInsert d p.1 p.2) [])

/-! ## GlusterVolInfo.parse_content -/

/-- One volume's record: attribute name to attribute value. -/
abbrev Record := List (String × String)

/-- The result mapping of the info parser: volume name to record. -/
abbrev InfoData := List (String × Record)

/-- The `(key, val)` pair the info parser extracts from an active line:
`key, val = line.strip().split(":", 1); key = key.strip(); val = val.lstrip()`. -/
def lineKV (l : String) : String × String :=
  (pyStrip (String.mk (beforeColonL (stripL l.data))),
   pyLstrip (String.mk (afterColonL (stripL l.data))))

/-- The commit performed after the loop: `if name and body: self.data[name] = body`
(a Python string is truthy iff non-empty, a dict iff non-empty). -/
def commitFinal (name : Option String) (body : Record) (data : InfoData) : InfoData :=
  match name with
  | some n => if n ≠ "" ∧ body ≠ [] then dictInsert data n body else data
  | none => data

/-- The line loop of `GlusterVolInfo.parse_content`, followed by the final
commit and the empty-result check. -/
def parseInfoLoop : List String → Option String → Record → InfoData →
    Except PErr InfoData
  | [], name, body, data =>
    if commitFinal name body data = [] then .error .parseException
    else .ok (commitFinal name body data)
  | line :: rest, name, body, data =>
    if hasColon line then
      if (lineKV line).1 = "Volume Name" then
        match name with
        | none => parseInfoLoop rest (some (lineKV line).2) body data
        | some n => parseInfoLoop rest (some (lineKV line).2) [] (dictInsert data n body)
      else
        parseInfoLoop rest name
          (dictInsert body (pyStrip (lineKV line).1) (pyLstripSpace (lineKV line).2)) data
    else .error .parseException

/-- The active lines the info parser iterates over
(`get_active_lines(content)`, default comment marker `"#"`). -/
def infoActive (content : List String) : List String := getActiveLines content "#"

/-- `GlusterVolInfo.parse_content`, as the resulting `data` mapping. -/
def parseInfo (content : List String) : Except PErr InfoData :=
  parseInfoLoop (infoActive content) none [] []

/-! ## GlusterVolStatus.parse_content -/

/-- The result mapping of the status parser: volume name to row sequence. -/
abbrev StatusData := List (String × List Row)

/-- The `header_substitute` argument of the `parse_fixed_table` call. -/
def headerSubs : List (String × String) :=
  [("Gluster process", "Gluster_process"), ("TCP Port", "TCP_Port"),
   ("RDMA Port", "RDMA_Port")]

/-- The derived-field computation on a row's `Gluster_process` value:
`Brick` rows gain `IP` and `Directory`, `Self-heal` rows gain `Host`. -/
def enrichVal (row : Row) (gp : String) : Except PErr Row :=
  if strStartsWith gp "Brick" then
    match pySplitColon1? gp with
    | none => .error .valueError
    | some (ipPart, dirPart) =>
      match (splitWsL ipPart.data).getLast? with
      | none => .error .indexError
      | some w =>
        .ok (dictInsert (dictInsert row "IP" (pyStrip (String.mk w)))
          "Directory" (pyStrip dirPart))
  else if strStartsWith gp "Self-heal" then
    match (splitWsL gp.data).getLast? with
    | none => .error .indexError
    | some w => .ok (dictInsert row "Host" (String.mk w))
  else .ok row

/-- The derived-field enrichment applied to each parsed row
(`v['Gluster_process']` raises `KeyError` when the column is absent). -/
def enrichRow (row : Row) : Except PErr Row :=
  match dictLookup row "Gluster_process" with
  | none => .error .keyError
  | some gp => enrichVal row gp

/-- Enrich every row of a section, propagating the first error. -/
def enrichAll : List Row → Except PErr (List Row)
  | [] => .ok []
  | r :: rs =>
    match enrichRow r with
    | .error e => .error e
    | .ok r2 =>
      match enrichAll rs with
      | .error e => .error e
      | .ok rs2 => .ok (r2 :: rs2)

/-- The slice `content[start:end]` the status parser hands to
`parse_fixed_table`: `end` is the next header index, or `-1` (one before the
end) for the last header. -/
def sectionSlice (content : List String) (idx : Nat) : Option Nat → List String
  | some e => (content.drop idx).take (e - idx)
  | none => (content.drop idx).dropLast

/-- Parse one section's fixed table and enrich its rows, exactly as the body
of the status parser's loop does. -/
def sectionRows (sec : List String) : Except PErr (List Row) :=
  enrichAll (parseFixedTable sec headerSubs ["Gluster process"] ["Task Status"])

/-- The loop of `GlusterVolStatus.parse_content` over the header indices. -/
def statusLoop (content : List String) : List Nat → StatusData →
    Except PErr StatusData
  | [], data => .ok data
  | idx :: rest, data =>
    match pySplitColon1? (content.getD idx "") with
    | none => .error .valueError
    | some (_, val) =>
      match sectionRows (sectionSlice content idx rest.head?) with
      | .error e => .error e
      | .ok rows => statusLoop content rest (dictInsert data (pyStrip val) rows)

/-- The active lines of the status parser
(`get_active_lines(content, '----')`). -/
def statusActive (content : List String) : List String :=
  getActiveLines content "----"

/-- The header indices:
`[i for i, l in enumerate(content) if l.startswith('Status of volume')]`. -/
def headerIdxs (content : List String) : List Nat :=
  (content.enum.filter (fun p => strStartsWith p.2 "Status of volume")).map Prod.fst

/-- `GlusterVolStatus.parse_content`, as the resulting `data` mapping. -/
def parseStatus (content : List String) : Except PErr StatusData :=
  match statusLoop (statusActive content) (headerIdxs (statusActive content)) [] with
  | .error e => .error e
  | .ok data => if data = [] then .error .parseException else .ok data

/-- The trimmed volume name on the header line at index `idx`
(the text after the first colon, stripped). -/
def nameAt (c : List String) (idx : Nat) : String :=
  pyStrip (String.mk (afterColonL (c.getD idx "").data))

/-- Sanity check: the embedded info parser reproduces the docstring sample. -/
theorem sampleInfo_eval : parseInfo ["Volume Name: test_vol", "Type: Replicate"] =
    .ok [("test_vol", [("Type", "Replicate")])] := by decide

/-- Sanity check: the embedded status parser reproduces the docstring sample,
including the derived `IP`, `Directory` and `Host` fields. -/
theorem sampleStatus_eval : parseStatus
    ["Status of volume: test_vol",
     "Gluster process                   TCP Port  RDMA Port  Online  Pid",
     "----------------",
     "Brick 1.2.3.4:/home/brick         49152     0          Y       111",
     "Self-heal Daemon on localhost     N/A       N/A        Y       7805",
     "Task Status of Volume test_vol",
     "There are no active volume tasks"] =
    .ok [("test_vol",
      [[("Gluster_process", "Brick 1.2.3.4:/home/brick"), ("TCP_Port", "49152"),
        ("RDMA_Port", "0"), ("Online", "Y"), ("Pid", "111"),
        ("IP", "1.2.3.4"), ("Directory", "/home/brick")],
       [("Gluster_process", "Self-heal Daemon on localhost"), ("TCP_Port", "N/A"),
        ("RDMA_Port", "N/A"), ("Online", "Y"), ("Pid", "7805"),
        ("Host", "localhost")]])] := by decide

/-! ## Specification-side descriptions

These definitions phrase what the spec asserts (marker values, first-seen
deduplication, the final-commit condition) so that the claim theorems can
relate the parser to them. -/

/-- The trimmed value a line contributes as a `"Volume Name"` marker
(`none` when the line is not a marker line). -/
def markerVal? (l : String) : Option String :=
  if hasColon l = true ∧ (lineKV l).1 = "Volume Name" then some (lineKV l).2
  else none

/-- The marker values of an input's active lines, in source order. -/
def markerVals (lines : List String) : List String := lines.filterMap markerVal?

/-- Append a key unless it is already present (dict-key accumulation). -/
def insKey (ks : List String) (k : String) : List String :=
  if k ∈ ks then ks else ks ++ [k]

/-- Deduplicate a list keeping the first occurrence of each element. -/
def dedupFirst (ms : List String) : List String := ms.foldl insKey []

/-- The final-commit condition of the info parser: after all lines are
consumed, the pending `(name, body)` pair satisfies Python's
`if name and body` (last marker value non-empty, at least one non-marker
line after the last marker); vacuously true for a line the loop rejects,
and when no marker was ever seen. -/
def finalCommitOkB : List String → Option String → Record → Bool
  | [], name, body =>
    match name with
    | none => true
    | some n => decide (n ≠ "" ∧ body ≠ [])
  | l :: rest, name, body =>
    if hasColon l then
      if (lineKV l).1 = "Volume Name" then
        match name with
        | none => finalCommitOkB rest (some (lineKV l).2) body
        | some _ => finalCommitOkB rest (some (lineKV l).2) []
      else
        finalCommitOkB rest name
          (dictInsert body (pyStrip (lineKV l).1) (pyLstripSpace (lineKV l).2))
    else true

/-! ## Parser objects with explicit state

`parse_content` is a method on an object carrying `self.data`; it starts by
reassigning `self.data = {}`, so the result never depends on the state the
object carried before the call.  These wrappers make that explicit. -/

/-- The mutable state of a `GlusterVolInfo` instance. -/
structure InfoState where
  data : InfoData

/-- The mutable state of a `GlusterVolStatus` instance. -/
structure StatusState where
  data : StatusData

/-- `GlusterVolInfo.parse_content` as a method: reset `self.data`, run the
loop over the incoming state's data field, store the result. -/
def infoMethod (s : InfoState) (content : List String) : Except PErr InfoState :=
  let s1 : InfoState := { s with data := [] }
  match parseInfoLoop (infoActive content) none [] s1.data with
  | .error e => .error e
  | .ok d => .ok { s1 with data := d }

/-- `GlusterVolStatus.parse_content` as a method. -/
def statusMethod (s : StatusState) (content : List String) :
    Except PErr StatusState :=
  let s1 : StatusState := { s with data := [] }
  match statusLoop (statusActive content) (headerIdxs (statusActive content)) s1.data with
  | .error e => .error e
  | .ok d => if d = [] then .error .parseException else .ok { s1 with data := d }

/-! ## Dictionary lemmas -/

theorem dictKeys_dictInsert {α : Type} (d : List (String × α)) (k : String) (v : α) :
    dictKeys (dictInsert d k v) = insKey (dictKeys d) k := by
  unfold dictInsert insKey
  by_cases h : k ∈ dictKeys d
  · rw [if_pos h, if_pos h]
    unfold dictKeys
    rw [List.map_map]
    apply List.map_congr_left
    intro p _
    by_cases hp : p.1 = k
    · simp [hp, Function.comp]
    · simp [hp, Function.comp]
  · rw [if_neg h, if_neg h]
    unfold dictKeys
    simp

theorem dictInsert_ne_nil {α : Type} (d : List (String × α)) (k : String) (v : α) :
    dictInsert d k v ≠ [] := by
  unfold dictInsert
  by_cases h : k ∈ dictKeys d
  · rw [if_pos h]
    intro hc
    rw [List.map_eq_nil_iff] at hc
    subst hc
    simp [dictKeys] at h
  · rw [if_neg h]
    simp

theorem dictLookup_dictInsert_self {α : Type} (d : List (String × α)) (k : String)
    (v : α) : dictLookup (dictInsert d k v) k = some v := by
  unfold dictInsert
  by_cases h : k ∈ dictKeys d
  · rw [if_pos h]
    induction d with
    | nil => simp [dictKeys] at h
    | cons p d ih =>
      by_cases hp : p.1 = k
      · simp [dictLookup, List.find?, hp]
      · have hk : k ∈ dictKeys d := by
          simp [dictKeys] at h ⊢
          rcases h with h | h
          · exact absurd h.symm hp
          · exact h
        simp only [List.map_cons, if_neg hp]
        simp [dictLookup, List.find?, hp] at ih ⊢
        exact ih hk
  · rw [if_neg h]
    have hfind : d.find? (fun p => p.1 = k) = none := by
      rw [List.find?_eq_none]
      intro p hp
      simp only [decide_eq_true_eq]
      intro hc
      exact h (by simp only [dictKeys, List.mem_map]; exact ⟨p, hp, hc⟩)
    unfold dictLookup
    rw [List.find?_append, hfind]
    simp [List.find?]

theorem insKey_nodup (ks : List String) (k : String) (h : ks.Nodup) :
    (insKey ks k).Nodup := by
  unfold insKey
  by_cases hk : k ∈ ks
  · rw [if_pos hk]; exact h
  · rw [if_neg hk]
    simp [List.nodup_append, h, hk]

theorem foldl_insKey_nodup (ms : List String) : ∀ ks : List String, ks.Nodup →
    (List.foldl insKey ks ms).Nodup := by
  induction ms with
  | nil => intro ks h; exact h
  | cons m ms ih =>
    intro ks h
    rw [List.foldl_cons]
    exact ih _ (insKey_nodup ks m h)

theorem foldl_insKey_of_disjoint (ms : List String) : ∀ ks : List String,
    ms.Nodup → (∀ m ∈ ms, m ∉ ks) → List.foldl insKey ks ms = ks ++ ms := by
  induction ms with
  | nil => intro ks _ _; simp
  | cons m ms ih =>
    intro ks hnd hdisj
    rw [List.foldl_cons]
    have hm : m ∉ ks := hdisj m (by simp)
    have h1 : insKey ks m = ks ++ [m] := by rw [insKey, if_neg hm]
    rw [h1, ih (ks ++ [m]) (List.Nodup.of_cons hnd)]
    · simp
    · intro x hx
      simp only [List.mem_append, List.mem_singleton]
      rintro (hxk | rfl)
      · exact hdisj x (by simp [hx]) hxk
      · exact (List.nodup_cons.mp hnd).1 hx

/-! ## Generic whitespace and colon lemmas -/

theorem ws_ne_colon {c : Char} (h : isWs c = true) : c ≠ ':' := by
  intro hc
  subst hc
  exact absurd h (by decide)

theorem isNotColon_true {c : Char} (h : c ≠ ':') : isNotColon c = true := by
  simp [isNotColon, h]

theorem isNotColon_false : isNotColon ':' = false := by decide

theorem isNotColon_of_ws {c : Char} (h : isWs c = true) : isNotColon c = true :=
  isNotColon_true (ws_ne_colon h)

theorem dropWhile_append_of_all {p : Char → Bool} :
    ∀ u v : List Char, (∀ c ∈ u, p c = true) →
      List.dropWhile p (u ++ v) = List.dropWhile p v := by
  intro u
  induction u with
  | nil => intro v _; rfl
  | cons c u ih =>
    intro v h
    rw [List.cons_append, List.dropWhile_cons, if_pos (h c (by simp))]
    exact ih v (fun a ha => h a (by simp [ha]))

theorem dropWhile_eq_nil_of_all {p : Char → Bool} (u : List Char)
    (h : ∀ c ∈ u, p c = true) : List.dropWhile p u = [] := by
  have := dropWhile_append_of_all u [] h
  simpa using this

theorem dropWhile_cons_head_false {p : Char → Bool} :
    ∀ {l : List Char} {c : Char} {w : List Char},
      List.dropWhile p l = c :: w → p c = false := by
  intro l
  induction l with
  | nil => intro c w h; cases h
  | cons a l ih =>
    intro c w h
    rw [List.dropWhile_cons] at h
    by_cases ha : p a = true
    · rw [if_pos ha] at h; exact ih h
    · rw [if_neg ha] at h
      cases h
      exact Bool.eq_false_iff.mpr ha

theorem dropWhile_head_false {p : Char → Bool} {c : Char} (w : List Char)
    (h : p c = false) : List.dropWhile p (c :: w) = c :: w := by
  rw [List.dropWhile_cons, h]
  simp

theorem dropWhile_idem (p : Char → Bool) (l : List Char) :
    List.dropWhile p (List.dropWhile p l) = List.dropWhile p l := by
  cases hl : List.dropWhile p l with
  | nil => rfl
  | cons c w => exact dropWhile_head_false w (dropWhile_cons_head_false hl)

theorem length_dropWhile_le' (p : Char → Bool) (l : List Char) :
    (List.dropWhile p l).length ≤ l.length := by
  induction l with
  | nil => simp
  | cons a l ih =>
    rw [List.dropWhile_cons]
    by_cases ha : p a = true
    · rw [if_pos ha]; exact le_trans ih (by simp)
    · rw [if_neg ha]

theorem dropWhile_ne_nil_of_mem {p : Char → Bool} {a : Char} :
    ∀ {u : List Char}, a ∈ u → p a = false → List.dropWhile p u ≠ [] := by
  intro u
  induction u with
  | nil => intro h; cases h
  | cons b u ih =>
    intro hmem hpa
    rw [List.dropWhile_cons]
    by_cases hb : p b = true
    · rw [if_pos hb]
      have : a ∈ u := by
        rcases List.mem_cons.mp hmem with rfl | h
        · rw [hpa] at hb; cases hb
        · exact h
      exact ih this hpa
    · rw [if_neg hb]; simp

theorem dropWhile_append_left_ne {p : Char → Bool} :
    ∀ {u : List Char} (v : List Char), List.dropWhile p u ≠ [] →
      List.dropWhile p (u ++ v) = List.dropWhile p u ++ v := by
  intro u
  induction u with
  | nil => intro v h; exact absurd rfl h
  | cons b u ih =>
    intro v h
    by_cases hb : p b = true
    · rw [List.dropWhile_cons, if_pos hb] at h
      rw [List.cons_append, List.dropWhile_cons, if_pos hb,
        List.dropWhile_cons, if_pos hb]
      exact ih v h
    · rw [List.cons_append, List.dropWhile_cons, if_neg hb,
        List.dropWhile_cons, if_neg hb, List.cons_append]

theorem getLast?_mem' {α : Type} : ∀ {l : List α} {a : α}, l.getLast? = some a → a ∈ l := by
  intro l
  induction l with
  | nil => intro a h; cases h
  | cons b l ih =>
    intro a h
    cases l with
    | nil => cases h; simp
    | cons c l =>
      rw [List.getLast?_cons_cons] at h
      exact List.mem_cons_of_mem b (ih h)

/-! ## lstrip / rstrip structure lemmas -/

theorem lstrip_idem (u : List Char) : lstripL (lstripL u) = lstripL u :=
  dropWhile_idem isWs u

theorem rstrip_decomp (cs : List Char) :
    ∃ t, cs = rstripL cs ++ t ∧ ∀ c ∈ t, isWs c = true := by
  refine ⟨(cs.reverse.takeWhile isWs).reverse, ?_, ?_⟩
  · conv_lhs => rw [← List.reverse_reverse cs,
      ← List.takeWhile_append_dropWhile (p := isWs) (l := cs.reverse)]
    rw [List.reverse_append]
    rfl
  · intro c hc
    rw [List.mem_reverse] at hc
    exact List.mem_takeWhile_imp hc

theorem rstrip_idem (cs : List Char) : rstripL (rstripL cs) = rstripL cs := by
  unfold rstripL
  rw [List.reverse_reverse, dropWhile_idem]

theorem rstrip_append_ws (x t : List Char) (h : ∀ c ∈ t, isWs c = true) :
    rstripL (x ++ t) = rstripL x := by
  unfold rstripL
  rw [List.reverse_append, dropWhile_append_of_all t.reverse x.reverse
    (fun c hc => h c (List.mem_reverse.mp hc))]

theorem rstrip_fixed_of_suffix {y x : List Char} (hs : y <:+ x)
    (hx : rstripL x = x) : rstripL y = y := by
  cases hy : y.reverse with
  | nil =>
    rw [List.reverse_eq_nil_iff] at hy
    rw [hy]
    rfl
  | cons c u =>
    have hpre : y.reverse <+: x.reverse := List.reverse_prefix.mpr hs
    obtain ⟨z, hz⟩ := hpre
    have hxrev : List.dropWhile isWs x.reverse = x.reverse := by
      have := congrArg List.reverse hx
      rwa [rstripL, List.reverse_reverse] at this
    rw [← hz, hy, List.cons_append] at hxrev
    have hc : isWs c = false := by
      by_cases hcb : isWs c = true
      · exfalso
        rw [List.dropWhile_cons, if_pos hcb] at hxrev
        have hlen := congrArg List.length hxrev
        have hle := length_dropWhile_le' isWs (u ++ z)
        rw [hlen] at hle
        simp only [List.length_cons] at hle
        omega
      · exact Bool.eq_false_iff.mpr hcb
    unfold rstripL
    rw [hy, dropWhile_head_false u hc, ← hy, List.reverse_reverse]

/-! ## Colon-split structure lemmas -/

theorem beforeColon_append {a : List Char} (t : List Char) (h : ':' ∈ a) :
    beforeColonL (a ++ t) = beforeColonL a := by
  induction a with
  | nil => cases h
  | cons c a ih =>
    unfold beforeColonL at ih ⊢
    rw [List.cons_append, List.takeWhile_cons, List.takeWhile_cons]
    by_cases hc : c = ':'
    · subst hc
      rw [if_neg (by rw [isNotColon_false]; exact Bool.false_ne_true)]
      rw [if_neg (by rw [isNotColon_false]; exact Bool.false_ne_true)]
    · have hmem : ':' ∈ a := by
        rcases List.mem_cons.mp h with heq | hm
        · exact absurd heq.symm hc
        · exact hm
      rw [if_pos (isNotColon_true hc), if_pos (isNotColon_true hc), ih hmem]

theorem afterColon_append {a : List Char} (t : List Char) (h : ':' ∈ a) :
    afterColonL (a ++ t) = afterColonL a ++ t := by
  induction a with
  | nil => cases h
  | cons c a ih =>
    unfold afterColonL at ih ⊢
    rw [List.cons_append, List.dropWhile_cons, List.dropWhile_cons]
    by_cases hc : c = ':'
    · subst hc
      rw [if_neg (by rw [isNotColon_false]; exact Bool.false_ne_true)]
      rw [if_neg (by rw [isNotColon_false]; exact Bool.false_ne_true)]
      simp
    · have hmem : ':' ∈ a := by
        rcases List.mem_cons.mp h with heq | hm
        · exact absurd heq.symm hc
        · exact hm
      rw [if_pos (isNotColon_true hc), if_pos (isNotColon_true hc)]
      exact ih hmem

theorem beforeColon_lstrip (cs : List Char) :
    beforeColonL (lstripL cs) = lstripL (beforeColonL cs) := by
  induction cs with
  | nil => rfl
  | cons c cs ih =>
    by_cases hw : isWs c = true
    · have hcolon : isNotColon c = true := isNotColon_of_ws hw
      unfold lstripL beforeColonL at ih ⊢
      rw [List.dropWhile_cons, if_pos hw, List.takeWhile_cons, if_pos hcolon,
        List.dropWhile_cons, if_pos hw]
      exact ih
    · have hwf : isWs c = false := Bool.eq_false_iff.mpr hw
      unfold lstripL beforeColonL
      rw [List.dropWhile_cons, if_neg hw]
      by_cases hc : c = ':'
      · subst hc
        rw [List.takeWhile_cons,
          if_neg (by rw [isNotColon_false]; exact Bool.false_ne_true)]
        rfl
      · rw [List.takeWhile_cons, if_pos (isNotColon_true hc),
          List.dropWhile_cons, if_neg hw]

theorem afterColon_lstrip (cs : List Char) :
    afterColonL (lstripL cs) = afterColonL cs := by
  induction cs with
  | nil => rfl
  | cons c cs ih =>
    by_cases hw : isWs c = true
    · have hcolon : isNotColon c = true := isNotColon_of_ws hw
      unfold lstripL afterColonL at ih ⊢
      rw [List.dropWhile_cons (p := isWs), if_pos hw,
        List.dropWhile_cons (p := isNotColon), if_pos hcolon]
      exact ih
    · unfold lstripL
      rw [List.dropWhile_cons, if_neg hw]

theorem mem_colon_lstrip {cs : List Char} (h : ':' ∈ cs) : ':' ∈ lstripL cs := by
  induction cs with
  | nil => cases h
  | cons c cs ih =>
    unfold lstripL at ih ⊢
    rw [List.dropWhile_cons]
    by_cases hw : isWs c = true
    · rw [if_pos hw]
      have hmem : ':' ∈ cs := by
        rcases List.mem_cons.mp h with heq | hm
        · exact absurd heq.symm (ws_ne_colon hw)
        · exact hm
      exact ih hmem
    · rw [if_neg hw]
      exact h

theorem afterColon_suffix (u : List Char) : afterColonL u <:+ u :=
  List.IsSuffix.trans (List.tail_suffix _) (List.dropWhile_suffix isNotColon)

theorem rstrip_afterColon {m : List Char} (h : ':' ∈ m) :
    afterColonL (rstripL m) = rstripL (afterColonL m) := by
  obtain ⟨t, hm, ht⟩ := rstrip_decomp m
  have hca : ':' ∈ rstripL m := by
    rw [hm] at h
    rcases List.mem_append.mp h with h1 | h1
    · exact h1
    · exact absurd rfl (ws_ne_colon (ht ':' h1))
  have h1 : afterColonL m = afterColonL (rstripL m) ++ t := by
    conv_lhs => rw [hm]
    exact afterColon_append t hca
  rw [h1, rstrip_append_ws _ t ht]
  have hfix : rstripL (afterColonL (rstripL m)) = afterColonL (rstripL m) :=
    rstrip_fixed_of_suffix (afterColon_suffix (rstripL m)) (rstrip_idem m)
  rw [hfix]

theorem beforeColon_rstrip {m : List Char} (h : ':' ∈ m) :
    beforeColonL (rstripL m) = beforeColonL m := by
  obtain ⟨t, hm, ht⟩ := rstrip_decomp m
  have hca : ':' ∈ rstripL m := by
    rw [hm] at h
    rcases List.mem_append.mp h with h1 | h1
    · exact h1
    · exact absurd rfl (ws_ne_colon (ht ':' h1))
  conv_rhs => rw [hm]
  rw [beforeColon_append t hca]

theorem lstrip_rstrip_comm (y : List Char) :
    lstripL (rstripL y) = rstripL (lstripL y) := by
  have hy : y = y.takeWhile isWs ++ y.dropWhile isWs :=
    (List.takeWhile_append_dropWhile (p := isWs) (l := y)).symm
  have hw : ∀ c ∈ y.takeWhile isWs, isWs c = true :=
    fun c hc => List.mem_takeWhile_imp hc
  cases hz : y.dropWhile isWs with
  | nil =>
    have hyw : y = y.takeWhile isWs := by rw [hz] at hy; simpa using hy
    have hr : rstripL y = [] := by
      conv_lhs => rw [hyw]
      unfold rstripL
      rw [dropWhile_eq_nil_of_all ((y.takeWhile isWs).reverse)
        (fun c hc => hw c (List.mem_reverse.mp hc))]
      rfl
    rw [hr]
    unfold lstripL
    rw [hz]
    rfl
  | cons c z' =>
    have hc : isWs c = false := dropWhile_cons_head_false hz
    have hzr : List.dropWhile isWs (c :: z').reverse ≠ [] := by
      apply dropWhile_ne_nil_of_mem (a := c) _ hc
      rw [List.mem_reverse]
      simp
    have hsplit : rstripL y = y.takeWhile isWs ++ rstripL (c :: z') := by
      conv_lhs => rw [hy, hz]
      unfold rstripL
      rw [List.reverse_append,
        dropWhile_append_left_ne (y.takeWhile isWs).reverse hzr,
        List.reverse_append, List.reverse_reverse]
    rw [hsplit]
    unfold lstripL
    rw [dropWhile_append_of_all _ _ hw]
    have hhead : ∃ r, rstripL (c :: z') = c :: r := by
      obtain ⟨t, hdec, htws⟩ := rstrip_decomp (c :: z')
      cases hrs : rstripL (c :: z') with
      | nil =>
        rw [hrs] at hdec
        simp only [List.nil_append] at hdec
        have hcw : isWs c = true := htws c (by rw [← hdec]; simp)
        rw [hc] at hcw
        cases hcw
      | cons c0 r =>
        rw [hrs] at hdec
        rw [List.cons_append] at hdec
        injection hdec with h1 _
        exact ⟨r, by rw [h1]⟩
    obtain ⟨r, hr⟩ := hhead
    rw [hr, dropWhile_head_false r hc, ← hr, hz]

theorem strip_lstrip (u : List Char) : stripL (lstripL u) = stripL u := by
  unfold stripL
  rw [lstrip_idem]

theorem strip_beforeColon {cs : List Char} (h : ':' ∈ cs) :
    stripL (beforeColonL (stripL cs)) = stripL (beforeColonL cs) := by
  have hm : ':' ∈ lstripL cs := mem_colon_lstrip h
  have h1 : beforeColonL (stripL cs) = lstripL (beforeColonL cs) := by
    unfold stripL
    rw [beforeColon_rstrip hm, beforeColon_lstrip]
  rw [h1, strip_lstrip]

theorem lstrip_afterColon_strip {cs : List Char} (h : ':' ∈ cs) :
    lstripL (afterColonL (stripL cs)) = stripL (afterColonL cs) := by
  have hm : ':' ∈ lstripL cs := mem_colon_lstrip h
  have h1 : afterColonL (stripL cs) = rstripL (afterColonL cs) := by
    unfold stripL
    rw [rstrip_afterColon hm, afterColon_lstrip]
  rw [h1, lstrip_rstrip_comm]
  rfl

/-! ## Whitespace tokenization lemmas -/

theorem splitWsAux_ne_nil : ∀ (cs : List Char) {acc : List Char}, acc ≠ [] →
    splitWsAux cs acc ≠ [] := by
  intro cs
  induction cs with
  | nil =>
    intro acc h
    unfold splitWsAux
    rw [if_neg h]
    simp
  | cons c cs ih =>
    intro acc h
    unfold splitWsAux
    by_cases hw : isWs c = true
    · rw [if_pos hw, if_neg h]
      simp
    · rw [if_neg hw]
      exact ih (by simp)

theorem splitWsL_cons_ne_nil {c : Char} (cs : List Char) (h : isWs c = false) :
    splitWsL (c :: cs) ≠ [] := by
  unfold splitWsL splitWsAux
  rw [if_neg (by rw [h]; exact Bool.false_ne_true)]
  exact splitWsAux_ne_nil cs (by simp)

theorem splitWsAux_no_ws : ∀ (cs acc : List Char),
    (∀ c ∈ acc, isWs c = false) →
    ∀ t ∈ splitWsAux cs acc, ∀ c ∈ t, isWs c = false := by
  intro cs
  induction cs with
  | nil =>
    intro acc hacc t ht
    unfold splitWsAux at ht
    by_cases h : acc = []
    · rw [if_pos h] at ht; cases ht
    · rw [if_neg h] at ht
      rcases List.mem_singleton.mp ht with rfl
      intro c hc
      exact hacc c (List.mem_reverse.mp hc)
  | cons c cs ih =>
    intro acc hacc t ht
    unfold splitWsAux at ht
    by_cases hw : isWs c = true
    · rw [if_pos hw] at ht
      by_cases h : acc = []
      · rw [if_pos h] at ht
        exact ih [] (by simp) t ht
      · rw [if_neg h] at ht
        rcases List.mem_cons.mp ht with rfl | hm
        · intro a ha
          exact hacc a (List.mem_reverse.mp ha)
        · exact ih [] (by simp) t hm
    · rw [if_neg hw] at ht
      refine ih (c :: acc) ?_ t ht
      intro a ha
      rcases List.mem_cons.mp ha with rfl | hm
      · exact Bool.eq_false_iff.mpr hw
      · exact hacc a hm

theorem mem_splitWsL_no_ws {s t : List Char} (ht : t ∈ splitWsL s) :
    ∀ c ∈ t, isWs c = false :=
  splitWsAux_no_ws s [] (by simp) t ht

theorem strip_of_no_ws {u : List Char} (h : ∀ c ∈ u, isWs c = false) :
    stripL u = u := by
  have hl : lstripL u = u := by
    cases u with
    | nil => rfl
    | cons c u => exact dropWhile_head_false u (h c (by simp))
  have hr : rstripL u = u := by
    unfold rstripL
    cases hu : u.reverse with
    | nil =>
      rw [List.reverse_eq_nil_iff] at hu
      rw [hu]
      rfl
    | cons c r =>
      have hc : isWs c = false := by
        apply h
        rw [← List.mem_reverse, hu]
        simp
      rw [dropWhile_head_false r hc, ← hu, List.reverse_reverse]
  unfold stripL
  rw [hl, hr]

/-! ## startswith lemmas -/

theorem strStartsWith_decomp {s p : String} (h : strStartsWith s p = true) :
    ∃ r, p.data ++ r = s.data := by
  unfold strStartsWith at h
  have hp : p.data <+: s.data := of_decide_eq_true h
  exact hp

theorem selfheal_not_brick {gp : String}
    (h : strStartsWith gp "Self-heal" = true) :
    strStartsWith gp "Brick" = false := by
  obtain ⟨r, hr⟩ := strStartsWith_decomp h
  cases hbb : strStartsWith gp "Brick" with
  | false => rfl
  | true =>
    exfalso
    obtain ⟨r2, hr2⟩ := strStartsWith_decomp hbb
    have h1 := congrArg List.head? (hr2.trans hr.symm)
    have hB : ("Brick".data ++ r2).head? = some 'B' := rfl
    have hS : ("Self-heal".data ++ r).head? = some 'S' := rfl
    rw [hB, hS] at h1
    injection h1 with h2
    exact absurd h2 (by decide)

theorem brick_beforeColon {gp : String} (h : strStartsWith gp "Brick" = true) :
    ∃ r, beforeColonL gp.data = 'B' :: r := by
  obtain ⟨r, hr⟩ := strStartsWith_decomp h
  refine ⟨beforeColonL ("rick".data ++ r), ?_⟩
  rw [← hr]
  have : ("Brick".data ++ r) = 'B' :: ("rick".data ++ r) := rfl
  rw [this]
  unfold beforeColonL
  rw [List.takeWhile_cons, if_pos (isNotColon_true (by decide))]

theorem selfheal_head {gp : String} (h : strStartsWith gp "Self-heal" = true) :
    ∃ r, gp.data = 'S' :: r := by
  obtain ⟨r, hr⟩ := strStartsWith_decomp h
  exact ⟨"elf-heal".data ++ r, hr.symm⟩

/-! ## Info parser loop lemmas -/

theorem markerVals_cons_some {l : String} (rest : List String) {v : String}
    (h : markerVal? l = some v) : markerVals (l :: rest) = v :: markerVals rest := by
  unfold markerVals
  rw [List.filterMap_cons, h]

theorem markerVals_cons_none {l : String} (rest : List String)
    (h : markerVal? l = none) : markerVals (l :: rest) = markerVals rest := by
  unfold markerVals
  rw [List.filterMap_cons, h]

theorem parseInfoLoop_ok_ne_nil :
    ∀ (lines : List String) (name : Option String) (body : Record)
      (data d : InfoData), parseInfoLoop lines name body data = .ok d → d ≠ [] := by
  intro lines
  induction lines with
  | nil =>
    intro name body data d h
    unfold parseInfoLoop at h
    by_cases hc : commitFinal name body data = []
    · rw [if_pos hc] at h; cases h
    · rw [if_neg hc] at h
      injection h with h2
      rw [← h2]
      exact hc
  | cons line rest ih =>
    intro name body data d h
    unfold parseInfoLoop at h
    by_cases hcol : hasColon line = true
    · rw [if_pos hcol] at h
      by_cases hk : (lineKV line).1 = "Volume Name"
      · rw [if_pos hk] at h
        cases name with
        | none => exact ih _ _ _ _ h
        | some n => exact ih _ _ _ _ h
      · rw [if_neg hk] at h
        exact ih _ _ _ _ h
    · rw [if_neg hcol] at h
      cases h

theorem parseInfoLoop_nocolon :
    ∀ (lines : List String) (name : Option String) (body : Record)
      (data : InfoData), (∃ l ∈ lines, hasColon l = false) →
      parseInfoLoop lines name body data = .error .parseException := by
  intro lines
  induction lines with
  | nil =>
    rintro name body data ⟨l, hl, _⟩
    cases hl
  | cons line rest ih =>
    rintro name body data ⟨l, hl, hcol⟩
    unfold parseInfoLoop
    by_cases hc : hasColon line = true
    · rw [if_pos hc]
      have hrest : ∃ l ∈ rest, hasColon l = false := by
        rcases List.mem_cons.mp hl with rfl | hm
        · rw [hcol] at hc; cases hc
        · exact ⟨l, hm, hcol⟩
      by_cases hk : (lineKV line).1 = "Volume Name"
      · rw [if_pos hk]
        cases name with
        | none => exact ih _ _ _ hrest
        | some n => exact ih _ _ _ hrest
      · rw [if_neg hk]
        exact ih _ _ _ hrest
    · rw [if_neg hc]

theorem parseInfoLoop_keys :
    ∀ (lines : List String) (name : Option String) (body : Record)
      (data d : InfoData),
      parseInfoLoop lines name body data = .ok d →
      finalCommitOkB lines name body = true →
      dictKeys d = List.foldl insKey (dictKeys data) (name.toList ++ markerVals lines) := by
  intro lines
  induction lines with
  | nil =>
    intro name body data d h hF
    unfold parseInfoLoop at h
    by_cases hc : commitFinal name body data = []
    · rw [if_pos hc] at h; cases h
    · rw [if_neg hc] at h
      injection h with h2
      subst h2
      unfold markerVals
      simp only [List.filterMap_nil, List.append_nil]
      cases name with
      | none =>
        simp only [Option.toList, List.foldl_nil]
        rfl
      | some n =>
        have hF2 : n ≠ "" ∧ body ≠ [] := of_decide_eq_true hF
        rw [show commitFinal (some n) body data = dictInsert data n body from if_pos hF2]
        simp only [Option.toList, List.foldl_cons, List.foldl_nil]
        exact dictKeys_dictInsert data n body
  | cons line rest ih =>
    intro name body data d h hF
    unfold parseInfoLoop at h
    unfold finalCommitOkB at hF
    by_cases hc : hasColon line = true
    · rw [if_pos hc] at h hF
      by_cases hk : (lineKV line).1 = "Volume Name"
      · rw [if_pos hk] at h hF
        have hmark : markerVal? line = some (lineKV line).2 := by
          unfold markerVal?
          rw [if_pos ⟨hc, hk⟩]
        rw [markerVals_cons_some rest hmark]
        cases name with
        | none =>
          rw [ih (some (lineKV line).2) body data d h hF]
          simp only [Option.toList, List.nil_append, List.singleton_append]
        | some n =>
          rw [ih (some (lineKV line).2) [] (dictInsert data n body) d h hF]
          simp only [Option.toList, List.singleton_append, List.foldl_cons,
            dictKeys_dictInsert]
      · rw [if_neg hk] at h hF
        have hmark : markerVal? line = none := by
          unfold markerVal?
          rw [if_neg (fun hand => hk hand.2)]
        rw [markerVals_cons_none rest hmark]
        exact ih name _ data d h hF
    · rw [if_neg hc] at h
      cases h

/-! ## Status parser lemmas -/

theorem pySplitColon1?_eq {s b v : String} (h : pySplitColon1? s = some (b, v)) :
    b = String.mk (beforeColonL s.data) ∧ v = String.mk (afterColonL s.data) := by
  unfold pySplitColon1? at h
  by_cases hc : hasColon s = true
  · rw [if_pos hc] at h
    injection h with h2
    cases h2
    exact ⟨rfl, rfl⟩
  · rw [if_neg hc] at h
    cases h

theorem parseStatus_ok_destruct {content : List String} {d : StatusData}
    (h : parseStatus content = .ok d) :
    statusLoop (statusActive content) (headerIdxs (statusActive content)) [] = .ok d ∧
      d ≠ [] := by
  unfold parseStatus at h
  cases hs : statusLoop (statusActive content) (headerIdxs (statusActive content)) [] with
  | error e => rw [hs] at h; cases h
  | ok data =>
    rw [hs] at h
    replace h : (if data = [] then (Except.error PErr.parseException : Except PErr StatusData)
        else Except.ok data) = Except.ok d := h
    by_cases hd : data = []
    · rw [if_pos hd] at h; cases h
    · rw [if_neg hd] at h
      injection h with h2
      subst h2
      exact ⟨rfl, hd⟩

theorem statusLoop_last :
    ∀ (idxs : List Nat) (content : List String) (data d : StatusData) (i : Nat),
      statusLoop content idxs data = .ok d → idxs.getLast? = some i →
      ∃ rows, sectionRows (sectionSlice content i none) = .ok rows ∧
        dictLookup d (nameAt content i) = some rows := by
  intro idxs
  induction idxs with
  | nil => intro content data d i h hlast; cases hlast
  | cons i0 rest ih =>
    intro content data d i h hlast
    unfold statusLoop at h
    cases hsp : pySplitColon1? (content.getD i0 "") with
    | none => rw [hsp] at h; cases h
    | some bv =>
      rw [hsp] at h
      obtain ⟨b, v⟩ := bv
      cases hsr : sectionRows (sectionSlice content i0 rest.head?) with
      | error e => rw [hsr] at h; cases h
      | ok rows =>
        rw [hsr] at h
        cases rest with
        | nil =>
          unfold statusLoop at h
          injection h with h2
          subst h2
          have hi : i0 = i := by
            rw [List.getLast?_singleton] at hlast
            injection hlast
          subst hi
          have hv : pyStrip v = nameAt content i0 := by
            rw [(pySplitColon1?_eq hsp).2]
            rfl
          refine ⟨rows, hsr, ?_⟩
          rw [← hv]
          exact dictLookup_dictInsert_self data (pyStrip v) rows
        | cons i1 rest2 =>
          rw [List.getLast?_cons_cons] at hlast
          exact ih content _ d i h hlast

/-! ## Enrichment lemmas -/

theorem enrichRow_some {row : Row} {gp : String}
    (h : dictLookup row "Gluster_process" = some gp) :
    enrichRow row = enrichVal row gp := by
  unfold enrichRow
  rw [h]

theorem enrichVal_brick {row : Row} {gp : String}
    (hb : strStartsWith gp "Brick" = true) (hc : hasColon gp = true) :
    enrichVal row gp =
      .ok (dictInsert (dictInsert row "IP"
        (lastToken (String.mk (beforeColonL gp.data))))
        "Directory" (pyStrip (String.mk (afterColonL gp.data)))) := by
  unfold enrichVal
  rw [if_pos hb]
  split
  · rename_i heq
    exfalso
    unfold pySplitColon1? at heq
    rw [if_pos hc] at heq
    cases heq
  · rename_i ipPart dirPart heq
    obtain ⟨hip, hdir⟩ := pySplitColon1?_eq heq
    subst hip
    subst hdir
    obtain ⟨r, hr⟩ := brick_beforeColon hb
    have hne : splitWsL (beforeColonL gp.data) ≠ [] := by
      rw [hr]
      exact splitWsL_cons_ne_nil r (by decide)
    split
    · rename_i heq2
      exact absurd (List.getLast?_eq_none_iff.mp heq2) hne
    · rename_i w heq2
      have heq3 : (splitWsL (beforeColonL gp.data)).getLast? = some w := heq2
      have hmem : w ∈ splitWsL (beforeColonL gp.data) := getLast?_mem' heq3
      have hstrip : stripL w = w := strip_of_no_ws (mem_splitWsL_no_ws hmem)
      have hlastTok : lastToken (String.mk (beforeColonL gp.data)) = String.mk w := by
        unfold lastToken
        rw [List.getLastD_eq_getLast?]
        rw [show (splitWsL (String.mk (beforeColonL gp.data)).data).getLast? = some w
          from heq3]
        rfl
      rw [hlastTok]
      have hps : pyStrip (String.mk w) = String.mk w := by
        unfold pyStrip
        exact congrArg String.mk hstrip
      rw [hps]

theorem enrichVal_selfheal {row : Row} {gp : String}
    (hs : strStartsWith gp "Self-heal" = true) :
    enrichVal row gp = .ok (dictInsert row "Host" (lastToken gp)) := by
  have hnb := selfheal_not_brick hs
  unfold enrichVal
  rw [if_neg (by rw [hnb]; exact Bool.false_ne_true), if_pos hs]
  obtain ⟨r, hr⟩ := selfheal_head hs
  have hne : splitWsL gp.data ≠ [] := by
    rw [hr]
    exact splitWsL_cons_ne_nil r (by decide)
  split
  · rename_i heq
    exact absurd (List.getLast?_eq_none_iff.mp heq) hne
  · rename_i w heq
    have hlastTok : lastToken gp = String.mk w := by
      unfold lastToken
      rw [List.getLastD_eq_getLast?, heq]
      rfl
    rw [hlastTok]

theorem enrichVal_other {row : Row} {gp : String}
    (hb : strStartsWith gp "Brick" = false)
    (hs : strStartsWith gp "Self-heal" = false) :
    enrichVal row gp = .ok row := by
  unfold enrichVal
  rw [if_neg (by rw [hb]; exact Bool.false_ne_true),
    if_neg (by rw [hs]; exact Bool.false_ne_true)]

/-! ## Slice lemma -/

theorem slice_take_drop {α : Type} : ∀ (l : List α) (i j : Nat),
    (l.drop i).take (j - i) = (l.take j).drop i := by
  intro l
  induction l with
  | nil => intro i j; simp
  | cons a l ih =>
    intro i j
    cases i with
    | zero => simp
    | succ i =>
      cases j with
      | zero => simp
      | succ j =>
        rw [List.drop_succ_cons, List.take_succ_cons, List.drop_succ_cons,
          Nat.succ_sub_succ]
        exact ih i j

/-! ## Small dict computation lemmas for concrete shapes -/

theorem dictInsert_nil {α : Type} (k : String) (v : α) :
    dictInsert ([] : List (String × α)) k v = [(k, v)] := rfl

theorem dictInsert_singleton_ne {α : Type} (k0 k1 : String) (v0 v1 : α)
    (h : k1 ≠ k0) : dictInsert [(k0, v0)] k1 v1 = [(k0, v0), (k1, v1)] := by
  unfold dictInsert
  rw [if_neg (by simp [dictKeys]; exact h)]
  rfl

/-! ## Claim theorems -/

/-- C4: `GlusterVolInfo.parse_content` raises `ParseException` whenever any
active line of the input contains no colon character, regardless of where
that line occurs in the input. -/
theorem c4_no_colon_raises (content : List String) (l : String)
    (h1 : l ∈ infoActive content) (h2 : hasColon l = false) :
    parseInfo content = .error .parseException := by
  unfold parseInfo
  exact parseInfoLoop_nocolon _ none [] [] ⟨l, h1, h2⟩

theorem c4_witness :
    parseInfo ["Volume Name: a", "oops"] = .error .parseException :=
  c4_no_colon_raises ["Volume Name: a", "oops"] "oops" (by decide) (by decide)

/-- C5: the info parser raises `ParseException` on inputs with no active
lines, the status parser raises `ParseException` on inputs with no
"Status of volume" header, and neither parser ever returns an empty result
mapping. -/
theorem c5_empty_result_raises (content content2 : List String) :
    (infoActive content = [] → parseInfo content = .error .parseException) ∧
    (headerIdxs (statusActive content2) = [] →
      parseStatus content2 = .error .parseException) ∧
    (∀ d, parseInfo content = .ok d → d ≠ []) ∧
    (∀ d2, parseStatus content2 = .ok d2 → d2 ≠ []) := by
  refine ⟨?_, ?_, ?_, ?_⟩
  · intro h
    unfold parseInfo
    rw [h]
    rfl
  · intro h
    unfold parseStatus
    rw [h]
    rfl
  · intro d h
    exact parseInfoLoop_ok_ne_nil _ none [] [] d h
  · intro d2 h
    exact (parseStatus_ok_destruct h).2

theorem c5_witness :
    parseInfo ["# note"] = .error .parseException ∧
    parseStatus ["volume"] = .error .parseException ∧
    ([("test_vol", [("Type", "Replicate")])] : InfoData) ≠ [] ∧
    ([("v", ([] : List Row))] : StatusData) ≠ [] := by
  refine ⟨?_, ?_, ?_, ?_⟩
  · exact (c5_empty_result_raises ["# note"] ["volume"]).1 (by decide)
  · exact (c5_empty_result_raises ["# note"] ["volume"]).2.1 (by decide)
  · exact (c5_empty_result_raises ["Volume Name: test_vol", "Type: Replicate"]
      ["x"]).2.2.1 _ (by decide)
  · exact (c5_empty_result_raises ["x"] ["Status of volume: v", "y"]).2.2.2 _
      (by decide)

/-- C9: both parse operations are deterministic and carry no state between
invocations: the method's result does not depend on the state the object
carried before the call (each call rebuilds its data mapping from scratch),
so identical input lines always yield structurally equal results. -/
theorem c9_deterministic_stateless :
    ∀ (s t : InfoState) (u v : StatusState) (ci cs : List String),
      infoMethod s ci = infoMethod t ci ∧ statusMethod u cs = statusMethod v cs := by
  intro s t u v ci cs
  cases s
  cases t
  cases u
  cases v
  exact ⟨rfl, rfl⟩

/-- C3 counterexample: the value stored for an active line with trailing
whitespace is fully trimmed, not left-trimmed only; the claim predicts the
stored value `"rep  "` but the code stores `"rep"` (the whole line is
stripped before splitting). -/
theorem c3_counterexample_trailing_whitespace :
    parseInfo ["Volume Name: v", "Type: rep  "] = .ok [("v", [("Type", "rep")])] ∧
    ("rep" : String) ≠ "rep  " := ⟨by decide, by decide⟩

/-- C3 amended: each active line is stripped of surrounding whitespace before
the first-colon split (`line.strip().split(":", 1)`), so both the key and the
value come out trimmed of whitespace on both sides; trailing whitespace in
the value part is removed, not preserved. -/
theorem c3_amended_both_sides_trimmed (l : String) (h : hasColon l = true) :
    lineKV l = (pyStrip (String.mk (beforeColonL l.data)),
      pyStrip (String.mk (afterColonL l.data))) := by
  have hmem : ':' ∈ l.data := of_decide_eq_true h
  unfold lineKV pyStrip pyLstrip
  rw [Prod.mk.injEq]
  constructor
  · exact congrArg String.mk (strip_beforeColon hmem)
  · exact congrArg String.mk (lstrip_afterColon_strip hmem)

theorem c3_amended_witness :
    lineKV " Type : rep  " =
      (pyStrip (String.mk (beforeColonL (" Type : rep  " : String).data)),
       pyStrip (String.mk (afterColonL (" Type : rep  " : String).data))) :=
  c3_amended_both_sides_trimmed " Type : rep  " (by decide)

/-- C2 counterexample: the final volume is committed only under Python's
`if name and body`; a final marker whose record stays empty is dropped, so
an input with two markers can produce one entry. -/
theorem c2_counterexample_empty_final_record :
    markerVals (infoActive ["Volume Name: a", "Type: x", "Volume Name: b"]) =
      ["a", "b"] ∧
    parseInfo ["Volume Name: a", "Type: x", "Volume Name: b"] =
      .ok [("a", [("Type", "x")])] ∧
    ([("a", [("Type", "x")])] : InfoData).length ≠ 2 := ⟨by decide, by decide, by decide⟩

/-- C2 amended: after all active lines are consumed the pending volume is
committed only when both its name and its accumulated record are non-empty;
consequently, for inputs satisfying that final-commit condition whose N
marker values are distinct, the result has exactly N entries. -/
theorem c2_amended_entry_count (content : List String) (d : InfoData)
    (h : parseInfo content = .ok d)
    (hF : finalCommitOkB (infoActive content) none [] = true)
    (hnd : (markerVals (infoActive content)).Nodup) :
    d.length = (markerVals (infoActive content)).length := by
  have hk := parseInfoLoop_keys (infoActive content) none [] [] d h hF
  simp only [Option.toList, List.nil_append] at hk
  have hdisj : ∀ m ∈ markerVals (infoActive content),
      m ∉ dictKeys ([] : InfoData) := by
    intro m _ hm
    simp [dictKeys] at hm
  rw [foldl_insKey_of_disjoint _ _ hnd hdisj] at hk
  have hlen : d.length = (dictKeys d).length := (List.length_map d Prod.fst).symm
  rw [hlen, hk]
  simp [dictKeys]

theorem c2_amended_witness :
    ([("a", [("Type", "x")]), ("b", [("Type", "y")])] : InfoData).length =
      (markerVals (infoActive
        ["Volume Name: a", "Type: x", "Volume Name: b", "Type: y"])).length :=
  c2_amended_entry_count ["Volume Name: a", "Type: x", "Volume Name: b", "Type: y"]
    _ (by decide) (by decide) (by decide)

/-- C8 counterexample: the keys of the result are not always the marker
values: the final marker's name is dropped when its record stays empty. -/
theorem c8_counterexample_final_marker_dropped :
    markerVals (infoActive ["Volume Name: vol1", "Volume Name: vol2"]) =
      ["vol1", "vol2"] ∧
    parseInfo ["Volume Name: vol1", "Volume Name: vol2"] = .ok [("vol1", [])] ∧
    dictKeys ([("vol1", ([] : Record))] : InfoData) ≠ ["vol1", "vol2"] :=
  ⟨by decide, by decide, by decide⟩

/-- C8 amended: provided the final-commit condition holds (the last marker's
name is non-empty and its record non-empty), the keys of the result are
exactly the trimmed values following `"Volume Name"` markers in order of
first encounter, without duplicates (a repeated name keeps its first
position). -/
theorem c8_amended_keys (content : List String) (d : InfoData)
    (h : parseInfo content = .ok d)
    (hF : finalCommitOkB (infoActive content) none [] = true) :
    dictKeys d = dedupFirst (markerVals (infoActive content)) ∧
      (dictKeys d).Nodup := by
  have hk := parseInfoLoop_keys (infoActive content) none [] [] d h hF
  simp only [Option.toList, List.nil_append] at hk
  constructor
  · rw [hk]
    rfl
  · rw [hk]
    exact foldl_insKey_nodup _ _ List.nodup_nil

theorem c8_amended_witness :
    dictKeys ([("m", [("Opt", "1")])] : InfoData) =
      dedupFirst (markerVals (infoActive ["Volume Name: m", "Opt: 1"])) ∧
    (dictKeys ([("m", [("Opt", "1")])] : InfoData)).Nodup :=
  c8_amended_keys ["Volume Name: m", "Opt: 1"] _ (by decide) (by decide)

/-- C6: for every parsed row, the derived-field enrichment adds `IP` (the
last whitespace-delimited word before the value's first colon) and
`Directory` (the trimmed remainder after that colon) when the
`Gluster_process` value starts with `"Brick"`; adds `Host` (the last
whitespace-delimited token of the value) when it starts with `"Self-heal"`;
and adds nothing when neither matches. -/
theorem c6_row_enrichment (row : Row) (gp : String)
    (h : dictLookup row "Gluster_process" = some gp) :
    (strStartsWith gp "Brick" = true ∧ hasColon gp = true →
      enrichRow row = .ok (dictInsert (dictInsert row "IP"
        (lastToken (String.mk (beforeColonL gp.data))))
        "Directory" (pyStrip (String.mk (afterColonL gp.data))))) ∧
    (strStartsWith gp "Self-heal" = true →
      enrichRow row = .ok (dictInsert row "Host" (lastToken gp))) ∧
    (strStartsWith gp "Brick" = false ∧ strStartsWith gp "Self-heal" = false →
      enrichRow row = .ok row) := by
  refine ⟨?_, ?_, ?_⟩
  · rintro ⟨hb, hc⟩
    rw [enrichRow_some h]
    exact enrichVal_brick hb hc
  · intro hs
    rw [enrichRow_some h]
    exact enrichVal_selfheal hs
  · rintro ⟨hb, hs⟩
    rw [enrichRow_some h]
    exact enrichVal_other hb hs

theorem c6_witness :
    enrichRow [("Gluster_process", "Brick 1.2.3.4:/home/brick")] =
      .ok [("Gluster_process", "Brick 1.2.3.4:/home/brick"), ("IP", "1.2.3.4"),
        ("Directory", "/home/brick")] ∧
    enrichRow [("Gluster_process", "Self-heal Daemon on localhost")] =
      .ok [("Gluster_process", "Self-heal Daemon on localhost"),
        ("Host", "localhost")] ∧
    enrichRow [("Gluster_process", "NFS Server on localhost")] =
      .ok [("Gluster_process", "NFS Server on localhost")] := by
  refine ⟨?_, ?_, ?_⟩
  · rw [(c6_row_enrichment [("Gluster_process", "Brick 1.2.3.4:/home/brick")]
      "Brick 1.2.3.4:/home/brick" (by decide)).1 ⟨by decide, by decide⟩]
    decide
  · rw [(c6_row_enrichment [("Gluster_process", "Self-heal Daemon on localhost")]
      "Self-heal Daemon on localhost" (by decide)).2.1 (by decide)]
    decide
  · exact (c6_row_enrichment [("Gluster_process", "NFS Server on localhost")]
      "NFS Server on localhost" (by decide)).2.2 ⟨by decide, by decide⟩

/-- C10: the status parser can fail with an exception that is not
`ParseException`: a parsed row whose `Gluster_process` value starts with
"Brick" but contains no colon makes the two-element destructuring of
`split(':', 1)` raise `ValueError`. -/
theorem c10_brick_without_colon_valueerror :
    parseStatus
      ["Status of volume: v",
       "Gluster process  TCP Port  RDMA Port  Online  Pid",
       "Brickfoo         49152     0          Y       111",
       "tail"] = .error .valueError ∧
    PErr.valueError ≠ PErr.parseException := ⟨by decide, by decide⟩

/-- C1 counterexample: the last section does not extend to the end of input:
`content[start:-1]` drops the final active line, so a trailing data row is
never handed to the fixed-table parse. -/
theorem c1_counterexample_last_line_dropped :
    sectionSlice (statusActive
      ["Status of volume: v",
       "Gluster process  TCP Port  RDMA Port  Online  Pid",
       "Brick h:/d  1  0  Y  5"]) 0 none ≠
      (statusActive
      ["Status of volume: v",
       "Gluster process  TCP Port  RDMA Port  Online  Pid",
       "Brick h:/d  1  0  Y  5"]).drop 0 ∧
    parseStatus
      ["Status of volume: v",
       "Gluster process  TCP Port  RDMA Port  Online  Pid",
       "Brick h:/d  1  0  Y  5"] = .ok [("v", [])] := ⟨by decide, by decide⟩

/-- C1 amended: the section belonging to the last header consists of the
active lines from that header up to, but not including, the final active
line (the Python slice ends at `-1`), and the rows stored under the last
header's name are computed from exactly those lines. -/
theorem c1_amended_last_section_drops_final_line (content : List String)
    (d : StatusData) (i : Nat) (h : parseStatus content = .ok d)
    (hlast : (headerIdxs (statusActive content)).getLast? = some i) :
    ∃ rows, sectionRows (((statusActive content).drop i).dropLast) = .ok rows ∧
      dictLookup d (nameAt (statusActive content) i) = some rows := by
  obtain ⟨hloop, _⟩ := parseStatus_ok_destruct h
  exact statusLoop_last (headerIdxs (statusActive content))
    (statusActive content) [] d i hloop hlast

theorem c1_amended_witness :
    ∃ rows, sectionRows (((statusActive ["Status of volume: v", "x"]).drop 0).dropLast) =
      .ok rows ∧
      dictLookup [("v", ([] : List Row))]
        (nameAt (statusActive ["Status of volume: v", "x"]) 0) = some rows :=
  c1_amended_last_section_drops_final_line ["Status of volume: v", "x"]
    [("v", [])] 0 (by decide) (by decide)

/-- C7 counterexample: two headers carrying the same volume name collapse to
a single top-level key (the later assignment overwrites the earlier one), so
two "Status of volume" lines do not always produce two keys. -/
theorem c7_counterexample_duplicate_names :
    (headerIdxs (statusActive
      ["Status of volume: v", "Status of volume: v"])).length = 2 ∧
    parseStatus ["Status of volume: v", "Status of volume: v"] = .ok [("v", [])] ∧
    ([("v", ([] : List Row))] : StatusData).length ≠ 2 :=
  ⟨by decide, by decide, by decide⟩

/-- C7 amended: when the active lines contain exactly two header lines at
indices `i < j` whose trimmed volume names differ, a successful parse has
exactly the two corresponding top-level keys, and the first name's rows are
parsed only from active lines strictly before index `j`. -/
theorem c7_amended_two_sections (content : List String) (i j : Nat)
    (d : StatusData) (h : parseStatus content = .ok d)
    (hidx : headerIdxs (statusActive content) = [i, j])
    (hne : nameAt (statusActive content) i ≠ nameAt (statusActive content) j) :
    ∃ r0 r1, sectionRows (((statusActive content).take j).drop i) = .ok r0 ∧
      d = [(nameAt (statusActive content) i, r0),
           (nameAt (statusActive content) j, r1)] := by
  obtain ⟨hloop, _⟩ := parseStatus_ok_destruct h
  rw [hidx] at hloop
  set c := statusActive content with hc
  unfold statusLoop at hloop
  split at hloop
  · cases hloop
  · rename_i bv0 b0 v0 heq0
    split at hloop
    · cases hloop
    · rename_i r0 hsr0
      unfold statusLoop at hloop
      split at hloop
      · cases hloop
      · rename_i bv1 b1 v1 heq1
        split at hloop
        · cases hloop
        · rename_i r1 hsr1
          injection hloop with h2
          subst h2
          have hv0 : pyStrip v0 = nameAt c i := by
            rw [(pySplitColon1?_eq heq0).2]
            rfl
          have hv1 : pyStrip v1 = nameAt c j := by
            rw [(pySplitColon1?_eq heq1).2]
            rfl
          refine ⟨r0, r1, ?_, ?_⟩
          · rw [← slice_take_drop c i j]
            exact hsr0
          · rw [dictInsert_nil, hv0, hv1,
              dictInsert_singleton_ne _ _ _ _ hne.symm]

theorem c7_amended_witness :
    ∃ r0 r1, sectionRows (((statusActive
        ["Status of volume: a", "x", "Status of volume: b", "y"]).take 2).drop 0) =
      .ok r0 ∧
      ([("a", []), ("b", [])] : StatusData) =
        [(nameAt (statusActive
            ["Status of volume: a", "x", "Status of volume: b", "y"]) 0, r0),
         (nameAt (statusActive
            ["Status of volume: a", "x", "Status of volume: b", "y"]) 2, r1)] :=
  c7_amended_two_sections ["Status of volume: a", "x", "Status of volume: b", "y"]
    0 2 [("a", []), ("b", [])] (by decide) (by decide) (by decide)
